import Mathlib

/-!
Verification development for the streaming row scanner of a CouchDB HTTP
client library (file couchdb.go of the repository).  The scanner consumes a
view/bulk-query HTTP response body, splits it into newline-delimited records,
decodes each record into a Row and hands the rows to a consumer through a
rendezvous channel, exposing a Scan/Row/Err/Close pull API.

The embedding below translates the relevant Go code:

  - Row, Row.HasValue, Row.HasDoc, Row.Value, Row.Doc  (couchdb.go 301-328)
  - the framing constants delim, endMarker and the closing-token checks
    (couchdb.go 343-346, 397)
  - RowScanner.readLoop as a pure function from the body byte stream to the
    list of effects it performs (couchdb.go 365-424); the deferred drain,
    body close and channel close are unfolded at every return path, in the
    order Go runs deferred calls (last registered first)
  - the concurrent Scan/Close surface as an explicit state machine driven by
    consumer operations, with oracle bits resolving the nondeterminism of
    the Go select statements (couchdb.go 360-363, 426-450).

Bytes are modelled as Char (the streams involved are ASCII); machine strings
are Lean String.  Go errors are the inductive GoError below: the only read
error a finite in-memory stream can produce is end of input (io.EOF), and
decode errors carry a message.
-/

namespace CouchDB

/-- The open-brace byte, written via its code point. -/
def lbrace : Char := Char.ofNat 123

/-- The close-brace byte, written via its code point. -/
def rbrace : Char := Char.ofNat 125

/-- Source: var delim byte = the newline byte (couchdb.go 344), the row
delimiter passed to ReadBytes. -/
def delim : Char := '\n'

/-- Source: var endMarker = close-brace CR LF (couchdb.go 345); absence of a
comma means last record. -/
def endMarker : List Char := [rbrace, '\r', '\n']

/-- First closing token compared against a line: close-brace, close-bracket,
CR, LF (couchdb.go 397). -/
def closeTokA : List Char := [rbrace, ']', '\r', '\n']

/-- Second closing token compared against a line: the bare CR LF line
(couchdb.go 397). -/
def closeTokB : List Char := ['\r', '\n']

/-- Errors surfaced by the reader: end of input from a read (io.EOF returned
by ReadBytes when the delimiter is never found), or a JSON decode error with
its message. -/
inductive GoError where
  | eof : GoError
  | decode (msg : String) : GoError
deriving DecidableEq, Repr

/-- Source: type Row (couchdb.go 301-306).  ID and Key are strings; Value_
and Doc_ hold the raw, undecoded payloads when the server included them
(json.RawMessage pointers in Go, an optional raw string here). -/
structure Row where
  ID : String
  Key : String
  Value_ : Option String
  Doc_ : Option String
deriving DecidableEq, Repr

instance : Inhabited Row := ⟨⟨"", "", none, none⟩⟩

/-- Source: func (r Row) HasValue() bool (couchdb.go 308-310). -/
def Row.HasValue (r : Row) : Bool := r.Value_.isSome

/-- Source: func (r Row) HasDoc() bool (couchdb.go 312-314). -/
def Row.HasDoc (r : Row) : Bool := r.Doc_.isSome

/-- Source: func (r Row) Value(v interface) error (couchdb.go 316-321).
Decoding into the caller-supplied target is abstracted as the function
unmarshalV from the raw payload to a result of the target shape. -/
def Row.Value {α : Type} (r : Row) (unmarshalV : String → Except String α) :
    Except String α :=
  match r.Value_ with
  | some raw => unmarshalV raw
  | none => Except.error ("value is nil.")

/-- Source: func (r Row) Doc(v interface) error (couchdb.go 323-328). -/
def Row.Doc {α : Type} (r : Row) (unmarshalV : String → Except String α) :
    Except String α :=
  match r.Doc_ with
  | some raw => unmarshalV raw
  | none => Except.error ("doc is nil.")

/-- The Go methods Value and Doc take the receiver by value and assign to no
field, so a call leaves the receiver unchanged; this wrapper makes the
receiver state after the call explicit, returning it next to the result. -/
def Row.ValueSt {α : Type} (r : Row) (unmarshalV : String → Except String α) :
    Except String α × Row :=
  (r.Value unmarshalV, r)

/-- State-explicit form of Row.Doc, as for Row.ValueSt. -/
def Row.DocSt {α : Type} (r : Row) (unmarshalV : String → Except String α) :
    Except String α × Row :=
  (r.Doc unmarshalV, r)

/-! ### Line framing -/

/-- One step of splitting the byte stream at each delimiter.  The
accumulator holds the current partial line reversed.  A trailing fragment
with no delimiter is dropped: ReadBytes reports an error (io.EOF) for it and
readLoop discards the partial data (couchdb.go 391-395). -/
def splitLinesAux : List Char → List Char → List (List Char)
  | _, [] => []
  | acc, c :: cs =>
    if c = delim then (c :: acc).reverse :: splitLinesAux [] cs
    else splitLinesAux (c :: acc) cs

/-- The sequence of complete delimiter-terminated lines that successive
ReadBytes calls return on the stream (couchdb.go 373, 391); each line
includes its terminating delimiter. -/
def splitLines (s : List Char) : List (List Char) := splitLinesAux [] s

/-- Membership test in the cutset of bytes.TrimRight: comma, CR, LF
(couchdb.go 406). -/
def inCutset (c : Char) : Bool := c == ',' || c == '\r' || c == '\n'

/-- Source: bytes.TrimRight(line, the cutset comma CR LF) (couchdb.go 406):
remove all trailing bytes that lie in the cutset. -/
def trimRight (l : List Char) : List Char :=
  (l.reverse.dropWhile inCutset).reverse

/-- Source: bytes.HasSuffix(line, endMarker) (couchdb.go 402). -/
def hasSuffixB (l suf : List Char) : Bool := suf.isSuffixOf l

/-- The observable actions of the read loop, in order: a ReadBytes call, a
row handed to the rendezvous channel, the error slot being set, the deferred
drain (io.Copy to Discard), the deferred response-body Close, and the
deferred close of the rows channel. -/
inductive Effect where
  | readLine : Effect
  | emit (r : Row) : Effect
  | setErr (e : GoError) : Effect
  | drain : Effect
  | closeBody : Effect
  | closeRows : Effect
deriving DecidableEq, Repr

/-- The deferred effects run at every return from readLoop, in Go's
last-registered-first order: drain the body, close the body (couchdb.go
367-370), then close the rows channel (couchdb.go 366). -/
def exitFx : List Effect := [Effect.drain, Effect.closeBody, Effect.closeRows]

/-- The loop body of readLoop (couchdb.go 384-424) over the remaining
complete lines of the stream, parameterised by the row decoder u standing
for json.Unmarshal into Row.  Each iteration: read a line (an exhausted
line list means ReadBytes failed with io.EOF, which is recorded and ends
the loop); stop silently on either closing token; remember whether the line
carries the endMarker suffix; strip the trailing comma/CR/LF bytes; decode,
recording a decode failure as the terminal error; otherwise emit the row and
stop if the endMarker was present.  The quit checks never fire here: this is
the run in which Close is not called; cancellation is modelled in the
scanner state machine below. -/
def readRows (u : List Char → Except String Row) :
    List (List Char) → List Effect
  | [] => Effect.readLine :: Effect.setErr GoError.eof :: exitFx
  | line :: rest =>
    Effect.readLine ::
      (if line = closeTokA ∨ line = closeTokB then exitFx
       else
         let last := hasSuffixB line endMarker
         match u (trimRight line) with
         | Except.error m => Effect.setErr (GoError.decode m) :: exitFx
         | Except.ok row =>
           if last then Effect.emit row :: exitFx
           else Effect.emit row :: readRows u rest)

/-- Source: func (s RowScanner) readLoop() (couchdb.go 365-424), as the list
of effects performed on a given body when Close is never called.  The first
line is read and discarded unconditionally (couchdb.go 373-377); a body with
no complete first line makes that first ReadBytes fail with io.EOF. -/
def readLoopGo (u : List Char → Except String Row) (body : List Char) :
    List Effect :=
  match splitLines body with
  | [] => Effect.readLine :: Effect.setErr GoError.eof :: exitFx
  | _ :: rest => Effect.readLine :: readRows u rest

/-- The rows a trace hands to the channel, in order. -/
def emittedRows (fx : List Effect) : List Row :=
  fx.filterMap fun e =>
    match e with
    | Effect.emit r => some r
    | _ => none

/-- The first (and, as proved below, only) error recorded in a trace. -/
def tracedErr (fx : List Effect) : Option GoError :=
  fx.findSome? fun e =>
    match e with
    | Effect.setErr g => some g
    | _ => none

/-- The rows the reader will hand over for a given body. -/
def frameRows (u : List Char → Except String Row) (body : List Char) :
    List Row :=
  emittedRows (readLoopGo u body)

/-- The terminal error the reader records for a given body, if it runs to
its natural end. -/
def frameErr (u : List Char → Except String Row) (body : List Char) :
    Option GoError :=
  tracedErr (readLoopGo u body)

/-! ### A concrete row decoder

The Go code decodes each stripped line with json.Unmarshal from the standard
library, which is not part of this repository; the general theorems below
are parameterised over an arbitrary decoder.  For the concrete scenarios a
model of json.Unmarshal is needed on the restricted grammar those bodies
use: a top-level object whose members are string keys with string values,
with no interior whitespace and no escape sequences.  As in Go, any
non-empty remainder after the top-level value is a syntax error (invalid
character after top-level value), and the same row fields are populated:
the member id fills ID, the member key fills Key, the members value and doc
are captured raw. -/

/-- Parse the remainder of a JSON string literal after its opening quote;
returns the content and the rest of the input.  Escape sequences are outside
the modelled grammar and fail. -/
def parseStrLit : List Char → Option (List Char × List Char)
  | [] => none
  | c :: cs =>
    if c = '"' then some ([], cs)
    else if c = '\\' then none
    else
      match parseStrLit cs with
      | none => none
      | some (s, r) => some (c :: s, r)

/-- Parse the members of a JSON object after its opening brace, up to and
including the closing brace; fuel bounds the recursion. -/
def parseMembers : Nat → List Char → Option (List (String × String) × List Char)
  | 0, _ => none
  | _ + 1, [] => none
  | fuel + 1, c :: cs =>
    if c = '"' then
      match parseStrLit cs with
      | none => none
      | some (k, r1) =>
        match r1 with
        | ':' :: '"' :: r2 =>
          match parseStrLit r2 with
          | none => none
          | some (v, r3) =>
            match r3 with
            | ',' :: r4 =>
              match parseMembers fuel r4 with
              | none => none
              | some (ms, r5) => some ((String.mk k, String.mk v) :: ms, r5)
            | c2 :: r4 =>
              if c2 = rbrace then some ([(String.mk k, String.mk v)], r4)
              else none
            | [] => none
        | _ => none
    else none

/-- Build a Row from parsed members the way json.Unmarshal fills the tagged
fields: absent members leave the Go zero values (empty strings, nil raws). -/
def rowOfMembers (ms : List (String × String)) : Row :=
  { ID := (ms.lookup ("id")).getD ("")
    Key := (ms.lookup ("key")).getD ("")
    Value_ := ms.lookup ("value")
    Doc_ := ms.lookup ("doc") }

/-- Model of json.Unmarshal into Row on the restricted grammar described
above: an object of string-valued members, with everything after the
closing brace an error, as json.Unmarshal reports for trailing data. -/
def jsonUnmarshalRow (l : List Char) : Except String Row :=
  match l with
  | [] => Except.error ("unexpected end of JSON input")
  | c :: cs =>
    if c = lbrace then
      match cs with
      | [] => Except.error ("unexpected end of JSON input")
      | c2 :: cs2 =>
        if c2 = rbrace then
          if cs2 = [] then Except.ok { ID := "", Key := "", Value_ := none, Doc_ := none }
          else Except.error ("invalid character after top-level value")
        else
          match parseMembers (cs.length + 1) cs with
          | none => Except.error ("invalid character in object")
          | some (ms, rest) =>
            if rest = [] then Except.ok (rowOfMembers ms)
            else Except.error ("invalid character after top-level value")
    else Except.error ("invalid character looking for beginning of value")

/-! ### The scanner state machine

The public surface of the scanner is concurrent: a background reader
executes readLoop while the consumer calls Scan and Close (couchdb.go
348-363, 426-434).  The machine below models the consumer-visible state.
The reader is run eagerly between consumer operations, so its position is
summarised by the rows it has not yet handed over; the Go select statements
introduce nondeterminism that the consumer operations carry as explicit
oracle bits:

  - when quit is closed and a sender is parked on the rows channel, the
    consumer's select in Scan (couchdb.go 428-432) may take either the quit
    case (returning false) or pair with the parked sender (receiving a row);
  - when the consumer takes the quit case, the reader's own select
    (couchdb.go 414-421) may or may not have completed its quit case yet,
    so the parked sender may either remain available or give up.

After a successful handoff the reader proceeds: with quit closed it exits at
the next checkpoint without reading further (couchdb.go 385-388, 416-418),
so the rest of its pending rows is abandoned and the error slot keeps its
value; with quit open it reads ahead until the next row is decoded, so when
the last pending row is handed over the reader immediately reaches its
natural end and records the frame error.  Every reader exit runs the
deferred drain and body close exactly once, which the fields bodyClosed and
drained account for. -/

/-- Consumer-visible state of one RowScanner (couchdb.go 330-341), together
with bookkeeping for the reader: ferr is the error the reader would record
at its natural end, pending the rows not yet handed over. -/
structure ScanState where
  ferr : Option GoError
  pending : List Row
  rowsClosed : Bool
  bodyClosed : Nat
  drained : Bool
  errSlot : Option GoError
  quitClosed : Bool
  panicked : Bool
  current : Row
deriving DecidableEq, Repr

/-- A consumer operation: a Scan call with its two oracle bits (whether the
consumer's select takes the quit case, and whether the parked reader has
already taken its own quit case), or a Close call. -/
inductive Op where
  | scan (takeQuit readerBails : Bool) : Op
  | close : Op
deriving DecidableEq, Repr

/-- The observable outcome of one consumer operation: the boolean returned
by Scan together with the current row readable through Row() afterwards, the
error value returned by Close, or a runtime panic. -/
inductive Out where
  | scanned (ok : Bool) (cur : Row) : Out
  | closed (e : Option GoError) : Out
  | panicStop : Out
deriving DecidableEq, Repr

/-- The scanner state right after newRowScanner returns and the reader
goroutine has run up to its first send or its exit (couchdb.go 348-358):
if the body yields no rows the reader already finished, recorded its error
and released the body; otherwise it is parked on the first handoff. -/
def initState (u : List Char → Except String Row) (body : List Char) :
    ScanState :=
  let rs := frameRows u body
  let fe := frameErr u body
  if rs.isEmpty then
    { ferr := fe, pending := [], rowsClosed := true, bodyClosed := 1
      drained := true, errSlot := fe, quitClosed := false, panicked := false
      current := default }
  else
    { ferr := fe, pending := rs, rowsClosed := false, bodyClosed := 0
      drained := false, errSlot := none, quitClosed := false, panicked := false
      current := default }

/-- One consumer operation against the scanner state.  Close is couchdb.go
360-363: closing an already-closed quit channel panics, otherwise the
current error slot is returned (read without the mutex there).  Scan is
couchdb.go 426-434 with the select semantics described above. -/
def step (st : ScanState) (op : Op) : ScanState × Out :=
  if st.panicked then (st, Out.panicStop)
  else
    match op with
    | Op.close =>
      if st.quitClosed then ({ st with panicked := true }, Out.panicStop)
      else ({ st with quitClosed := true }, Out.closed st.errSlot)
    | Op.scan takeQuit readerBails =>
      if st.quitClosed then
        if takeQuit then
          let st1 :=
            if readerBails ∧ ¬st.pending.isEmpty ∧ ¬st.rowsClosed then
              { st with pending := [], rowsClosed := true
                        bodyClosed := st.bodyClosed + 1, drained := true }
            else st
          (st1, Out.scanned false st.current)
        else
          match st.pending with
          | r :: _ =>
            ({ st with current := r, pending := [], rowsClosed := true
                       bodyClosed := st.bodyClosed + 1, drained := true },
             Out.scanned true r)
          | [] => (st, Out.scanned false st.current)
      else
        match st.pending with
        | r :: rest =>
          if rest.isEmpty then
            ({ st with current := r, pending := [], rowsClosed := true
                       bodyClosed := st.bodyClosed + 1, drained := true
                       errSlot := st.ferr },
             Out.scanned true r)
          else ({ st with current := r, pending := rest }, Out.scanned true r)
        | [] => (st, Out.scanned false st.current)

/-- Run a list of consumer operations, collecting the outcomes and the final
state. -/
def runOps : ScanState → List Op → List Out × ScanState
  | st, [] => ([], st)
  | st, op :: ops =>
    let p := step st op
    let q := runOps p.1 ops
    (p.2 :: q.1, q.2)

/-- n Scan calls from a consumer that never cancels. -/
def scanOps (n : Nat) : List Op := List.replicate n (Op.scan false false)

/-- The outcomes of n plain Scan calls when the reader still has the given
rows to hand over and the current row is cur: one true per pending row, in
order, then false forever, the current row freezing at the last delivery. -/
def scanOuts : List Row → Row → Nat → List Out
  | _, _, 0 => []
  | [], cur, n + 1 => Out.scanned false cur :: scanOuts [] cur n
  | r :: rest, _, n + 1 => Out.scanned true r :: scanOuts rest r n

/-! ### Well-formed bodies

The shape the read loop accepts, stated over the byte stream: a header
line, then row lines each carrying a trailing comma before the CR LF
terminator, ended by a closing token (or a final row marked by endMarker,
treated separately). -/

/-- One complete physical line: some delimiter-free content followed by the
delimiter. -/
def oneLine (l : List Char) : Prop := ∃ p, l = p ++ ['\n'] ∧ '\n' ∉ p

/-- A non-final row line as the loop expects it: a payload p with no
delimiter inside, followed by the trailing comma and the CR LF terminator;
stripping the cutset recovers exactly p, and the decoder reads row r from
p. -/
def commaRowLine (u : List Char → Except String Row) (r : Row)
    (l : List Char) : Prop :=
  ∃ p, l = p ++ [',', '\r', '\n'] ∧ '\n' ∉ p ∧ trimRight l = p ∧
    u p = Except.ok r

/-! ### Lemmas about line splitting -/

theorem splitLinesAux_append (p : List Char) :
    ∀ (acc rest : List Char), '\n' ∉ p →
      splitLinesAux acc (p ++ '\n' :: rest) =
        (acc.reverse ++ p ++ ['\n']) :: splitLinesAux [] rest := by
  induction p with
  | nil =>
    intro acc rest _
    simp [splitLinesAux, delim]
  | cons c p ih =>
    intro acc rest hn
    have hc : ¬c = '\n' := fun h => hn (by simp [h])
    have hp : '\n' ∉ p := fun h => hn (List.mem_cons_of_mem _ h)
    simp only [List.cons_append, splitLinesAux, delim, if_neg hc]
    rw [List.append_eq, ih (c :: acc) rest hp]
    simp

theorem splitLines_oneLine_append {l : List Char} (h : oneLine l)
    (rest : List Char) :
    splitLines (l ++ rest) = l :: splitLines rest := by
  obtain ⟨p, rfl, hp⟩ := h
  have := splitLinesAux_append p [] rest hp
  simpa [splitLines] using this

theorem splitLines_nil : splitLines [] = [] := rfl

theorem splitLines_join {ls : List (List Char)}
    (h : ∀ l ∈ ls, oneLine l) (tail : List Char) :
    splitLines (ls.flatten ++ tail) = ls ++ splitLines tail := by
  induction ls with
  | nil => simp
  | cons l ls ih =>
    have hl : oneLine l := h l (List.mem_cons_self _ _)
    have hls : ∀ x ∈ ls, oneLine x := fun x hx => h x (List.mem_cons_of_mem _ hx)
    simp only [List.flatten_cons, List.append_assoc]
    rw [splitLines_oneLine_append hl, ih hls]
    rfl

/-! ### Facts about comma row lines -/

theorem commaRowLine_oneLine {u r l} (h : commaRowLine u r l) : oneLine l := by
  obtain ⟨p, rfl, hp, -, -⟩ := h
  refine ⟨p ++ [',', '\r'], by simp, ?_⟩
  intro hmem
  rcases List.mem_append.1 hmem with h1 | h1
  · exact hp h1
  · simp at h1

theorem last_three_eq {p q : List Char} {a b : Char}
    (h : p ++ [a, '\r', '\n'] = q ++ [b, '\r', '\n']) : a = b := by
  have := congrArg List.reverse h
  simp at this
  exact this.1

theorem commaRowLine_ne_closeTokA {u r l} (h : commaRowLine u r l) :
    l ≠ closeTokA := by
  obtain ⟨p, rfl, -, -, -⟩ := h
  intro hEq
  have : p ++ [',', '\r', '\n'] = [rbrace] ++ [']', '\r', '\n'] := by
    simpa [closeTokA] using hEq
  have := last_three_eq this
  exact absurd this (by decide)

theorem commaRowLine_ne_closeTokB {u r l} (h : commaRowLine u r l) :
    l ≠ closeTokB := by
  obtain ⟨p, rfl, -, -, -⟩ := h
  intro hEq
  have := congrArg List.length hEq
  simp [closeTokB] at this

theorem commaRowLine_not_endMarker {u r l} (h : commaRowLine u r l) :
    hasSuffixB l endMarker = false := by
  obtain ⟨p, rfl, -, -, -⟩ := h
  rw [hasSuffixB, Bool.eq_false_iff]
  intro hSuf
  have hsuf : endMarker <:+ p ++ [',', '\r', '\n'] :=
    List.isSuffixOf_iff_suffix.1 hSuf
  obtain ⟨t, ht⟩ := hsuf
  have : t ++ [rbrace, '\r', '\n'] = p ++ [',', '\r', '\n'] := by
    simpa [endMarker] using ht
  have := last_three_eq this
  exact absurd this (by decide)

/-! ### The read loop over well-formed row lines -/

theorem readRows_cons_comma {u r line} (h : commaRowLine u r line)
    (rest : List (List Char)) :
    readRows u (line :: rest) =
      Effect.readLine :: Effect.emit r :: readRows u rest := by
  have hA := commaRowLine_ne_closeTokA h
  have hB := commaRowLine_ne_closeTokB h
  have hS := commaRowLine_not_endMarker h
  obtain ⟨p, hline, -, htrim, hu⟩ := h
  rw [readRows, if_neg (by exact fun hc => hc.elim hA hB)]
  rw [htrim, hu, hS]
  simp

theorem readRows_append_comma {u rs lines}
    (h : List.Forall₂ (commaRowLine u) rs lines) (tail : List (List Char)) :
    readRows u (lines ++ tail) =
      (rs.map fun r => [Effect.readLine, Effect.emit r]).flatten ++
        readRows u tail := by
  induction h with
  | nil => simp
  | cons hrl _ ih =>
    rw [List.cons_append, readRows_cons_comma hrl, ih]
    simp

theorem emittedRows_nil : emittedRows [] = [] := rfl

theorem emittedRows_readLine (fx : List Effect) :
    emittedRows (Effect.readLine :: fx) = emittedRows fx := rfl

theorem emittedRows_emit (r : Row) (fx : List Effect) :
    emittedRows (Effect.emit r :: fx) = r :: emittedRows fx := rfl

theorem emittedRows_setErr (e : GoError) (fx : List Effect) :
    emittedRows (Effect.setErr e :: fx) = emittedRows fx := rfl

theorem tracedErr_readLine (fx : List Effect) :
    tracedErr (Effect.readLine :: fx) = tracedErr fx := rfl

theorem tracedErr_emit (r : Row) (fx : List Effect) :
    tracedErr (Effect.emit r :: fx) = tracedErr fx := rfl

theorem tracedErr_setErr (e : GoError) (fx : List Effect) :
    tracedErr (Effect.setErr e :: fx) = some e := rfl

theorem emittedRows_blocks (rs : List Row) (fx : List Effect) :
    emittedRows ((rs.map fun r => [Effect.readLine, Effect.emit r]).flatten ++ fx)
      = rs ++ emittedRows fx := by
  induction rs with
  | nil => simp
  | cons r rs ih =>
    have hshape :
        ((r :: rs).map fun x => [Effect.readLine, Effect.emit x]).flatten ++ fx
          = Effect.readLine :: Effect.emit r ::
              ((rs.map fun x => [Effect.readLine, Effect.emit x]).flatten ++ fx) := by
      simp
    rw [hshape, emittedRows_readLine, emittedRows_emit, ih]
    rfl

theorem tracedErr_blocks (rs : List Row) (fx : List Effect) :
    tracedErr ((rs.map fun r => [Effect.readLine, Effect.emit r]).flatten ++ fx)
      = tracedErr fx := by
  induction rs with
  | nil => simp
  | cons r rs ih =>
    have hshape :
        ((r :: rs).map fun x => [Effect.readLine, Effect.emit x]).flatten ++ fx
          = Effect.readLine :: Effect.emit r ::
              ((rs.map fun x => [Effect.readLine, Effect.emit x]).flatten ++ fx) := by
      simp
    rw [hshape, tracedErr_readLine, tracedErr_emit, ih]

theorem emittedRows_exitFx : emittedRows exitFx = [] := rfl

theorem tracedErr_exitFx : tracedErr exitFx = none := rfl

/-- The closing token closeTokA is itself one complete physical line. -/
theorem oneLine_closeTokA : oneLine closeTokA :=
  ⟨[rbrace, ']', '\r'], by decide, by decide⟩

theorem splitLines_closeTokA : splitLines closeTokA = [closeTokA] := by decide

theorem forall₂_oneLine {u rs lines}
    (h : List.Forall₂ (commaRowLine u) rs lines) : ∀ l ∈ lines, oneLine l := by
  induction h with
  | nil =>
    intro l hmem
    simp at hmem
  | cons hrl _ ih =>
    intro l hmem
    rcases List.mem_cons.1 hmem with rfl | hm
    · exact commaRowLine_oneLine hrl
    · exact ih _ hm

/-- For a body assembled from a header line, comma row lines for the rows rs
and the first closing token, the read loop performs exactly one read per
line, emits exactly the rows rs in order, records no error, and finishes
with the deferred drain and closes. -/
theorem readLoopGo_wf {u hl rs lines} (h1 : oneLine hl)
    (h2 : List.Forall₂ (commaRowLine u) rs lines) :
    readLoopGo u (hl ++ lines.flatten ++ closeTokA) =
      Effect.readLine ::
        ((rs.map fun r => [Effect.readLine, Effect.emit r]).flatten ++
          (Effect.readLine :: exitFx)) := by
  rw [readLoopGo, List.append_assoc, splitLines_oneLine_append h1,
    splitLines_join (forall₂_oneLine h2) closeTokA, splitLines_closeTokA]
  show Effect.readLine :: readRows u (lines ++ [closeTokA]) = _
  rw [readRows_append_comma h2 [closeTokA]]
  rw [readRows, if_pos (Or.inl rfl)]

theorem frameRows_wf {u hl rs lines} (h1 : oneLine hl)
    (h2 : List.Forall₂ (commaRowLine u) rs lines) :
    frameRows u (hl ++ lines.flatten ++ closeTokA) = rs := by
  rw [frameRows, readLoopGo_wf h1 h2, emittedRows_readLine,
    emittedRows_blocks, emittedRows_readLine, emittedRows_exitFx,
    List.append_nil]

theorem frameErr_wf {u hl rs lines} (h1 : oneLine hl)
    (h2 : List.Forall₂ (commaRowLine u) rs lines) :
    frameErr u (hl ++ lines.flatten ++ closeTokA) = none := by
  rw [frameErr, readLoopGo_wf h1 h2, tracedErr_readLine,
    tracedErr_blocks, tracedErr_readLine, tracedErr_exitFx]

/-! ### Machine lemmas for a consumer that never cancels -/

theorem step_scan_plain_nil {st : ScanState} (hp : st.panicked = false)
    (hq : st.quitClosed = false) (hpend : st.pending = []) :
    step st (Op.scan false false) = (st, Out.scanned false st.current) := by
  simp [step, hp, hq, hpend]

theorem step_scan_plain_last {st : ScanState} {r : Row}
    (hp : st.panicked = false) (hq : st.quitClosed = false)
    (hpend : st.pending = [r]) :
    step st (Op.scan false false) =
      ({ st with current := r, pending := [], rowsClosed := true
                 bodyClosed := st.bodyClosed + 1, drained := true
                 errSlot := st.ferr },
       Out.scanned true r) := by
  simp [step, hp, hq, hpend]

theorem step_scan_plain_cons {st : ScanState} {r : Row} {rest : List Row}
    (hp : st.panicked = false) (hq : st.quitClosed = false)
    (hpend : st.pending = r :: rest) (hrest : rest ≠ []) :
    step st (Op.scan false false) =
      ({ st with current := r, pending := rest }, Out.scanned true r) := by
  simp [step, hp, hq, hpend, hrest]

theorem scanOps_succ (n : Nat) :
    scanOps (n + 1) = Op.scan false false :: scanOps n := rfl

theorem runOps_cons (st : ScanState) (op : Op) (ops : List Op) :
    runOps st (op :: ops) =
      ((step st op).2 :: (runOps (step st op).1 ops).1,
        (runOps (step st op).1 ops).2) := rfl

/-- Outputs of n plain Scan calls: one true per pending row, then false
forever, with the current row recorded at each step. -/
theorem runScans_outs :
    ∀ (n : Nat) (st : ScanState), st.panicked = false →
      st.quitClosed = false →
      (runOps st (scanOps n)).1 = scanOuts st.pending st.current n := by
  intro n
  induction n with
  | zero =>
    intro st _ _
    cases st.pending <;> rfl
  | succ n ih =>
    intro st hp hq
    rw [scanOps_succ, runOps_cons]
    cases hpend : st.pending with
    | nil =>
      rw [step_scan_plain_nil hp hq hpend]
      rw [ih st hp hq, hpend, scanOuts]
    | cons r rest =>
      cases hrest : rest with
      | nil =>
        rw [hrest] at hpend
        rw [step_scan_plain_last hp hq hpend]
        rw [ih _ (by simp [hp]) (by simp [hq])]
        simp [hpend, scanOuts]
      | cons r2 rest2 =>
        rw [step_scan_plain_cons hp hq hpend (by rw [hrest]; simp)]
        rw [ih _ (by simp [hp]) (by simp [hq])]
        simp [hpend, scanOuts]
        rw [hrest]

/-- Plain Scan calls on a scanner whose reader has already finished change
nothing. -/
theorem runScans_state_nil :
    ∀ (n : Nat) (st : ScanState), st.panicked = false →
      st.quitClosed = false → st.pending = [] →
      (runOps st (scanOps n)).2 = st := by
  intro n
  induction n with
  | zero =>
    intro st _ _ _
    rfl
  | succ n ih =>
    intro st hp hq hpend
    rw [scanOps_succ, runOps_cons, step_scan_plain_nil hp hq hpend]
    exact ih st hp hq hpend

/-- Once the consumer has scanned at least as many times as there are
pending rows, the error slot holds the reader's terminal error. -/
theorem runScans_errSlot :
    ∀ (n : Nat) (st : ScanState), st.panicked = false →
      st.quitClosed = false → st.pending ≠ [] → st.pending.length ≤ n →
      (runOps st (scanOps n)).2.errSlot = st.ferr := by
  intro n
  induction n with
  | zero =>
    intro st _ _ hpend hlen
    cases hp : st.pending with
    | nil => exact absurd hp hpend
    | cons r rest =>
      rw [hp] at hlen
      simp at hlen
  | succ n ih =>
    intro st hp hq hpend hlen
    cases hpendEq : st.pending with
    | nil => exact absurd hpendEq hpend
    | cons r rest =>
      cases hrest : rest with
      | nil =>
        rw [hrest] at hpendEq
        rw [scanOps_succ, runOps_cons, step_scan_plain_last hp hq hpendEq]
        rw [runScans_state_nil n _ (by simp [hp]) (by simp [hq]) (by simp)]
      | cons r2 rest2 =>
        rw [scanOps_succ, runOps_cons,
          step_scan_plain_cons hp hq hpendEq (by rw [hrest]; simp)]
        have hres : (({ st with current := r, pending := rest } :
            ScanState)).pending = rest := rfl
        rw [ih _ (by simp [hp]) (by simp [hq])
          (by rw [hres, hrest]; simp)
          (by
            rw [hres]
            have : st.pending.length = rest.length + 1 := by
              rw [hpendEq, hrest]
              simp
            omega)]

theorem initState_panicked (u : List Char → Except String Row)
    (body : List Char) : (initState u body).panicked = false := by
  rw [initState]
  split <;> rfl

theorem initState_quitClosed (u : List Char → Except String Row)
    (body : List Char) : (initState u body).quitClosed = false := by
  rw [initState]
  split <;> rfl

theorem initState_current (u : List Char → Except String Row)
    (body : List Char) : (initState u body).current = default := by
  rw [initState]
  split <;> rfl

theorem initState_ferr (u : List Char → Except String Row)
    (body : List Char) : (initState u body).ferr = frameErr u body := by
  rw [initState]
  split <;> rfl

theorem initState_pending (u : List Char → Except String Row)
    (body : List Char) : (initState u body).pending = frameRows u body := by
  rw [initState]
  split
  · next h =>
    rw [List.isEmpty_iff] at h
    rw [h]
  · rfl

theorem initState_errSlot_of_nil {u body} (h : frameRows u body = []) :
    (initState u body).errSlot = frameErr u body := by
  rw [initState]
  rw [if_pos (by rw [h]; rfl)]

theorem initState_errSlot_of_ne {u body} (h : frameRows u body ≠ []) :
    (initState u body).errSlot = none := by
  rw [initState]
  rw [if_neg (by rwa [List.isEmpty_iff])]

theorem scanOuts_full :
    ∀ (rs : List Row) (cur : Row),
      scanOuts rs cur (rs.length + 1) =
        rs.map (fun r => Out.scanned true r) ++
          [Out.scanned false (rs.getLastD cur)] := by
  intro rs
  induction rs with
  | nil =>
    intro cur
    rfl
  | cons r rest ih =>
    intro cur
    rw [List.length_cons, scanOuts, ih r]
    rw [List.map_cons, List.getLastD_cons]
    rfl

/-! ### Concrete scenario data -/

/-- Header line of the concrete two-row scenario, CR LF terminated. -/
def hdrCRLF : List Char :=
  ("\x7b\"total_rows\":2,\"offset\":0,\"rows\":[\r\n").data

/-- Header line with the bare LF terminator of the specification text. -/
def hdrLF : List Char :=
  ("\x7b\"total_rows\":2,\"offset\":0,\"rows\":[\n").data

/-- First row line, trailing comma, CR LF terminated. -/
def rowALineCRLF : List Char := ("\x7b\"id\":\"a\",\"key\":\"k1\"\x7d,\r\n").data

/-- Second row line as the final array element: no trailing comma, CR LF
terminated, so it carries the endMarker suffix. -/
def rowBLineLast : List Char := ("\x7b\"id\":\"b\",\"key\":\"k2\"\x7d\r\n").data

/-- First row line with the bare LF terminator of the specification text. -/
def rowALineLF : List Char := ("\x7b\"id\":\"a\",\"key\":\"k1\"\x7d,\n").data

/-- Second row line as written in the specification scenario: the closing
bracket of the array shares the line, bare LF terminator. -/
def rowBLineLF : List Char := ("\x7b\"id\":\"b\",\"key\":\"k2\"\x7d]\n").data

/-- The row with ID a. -/
def rowA : Row := { ID := "a", Key := "k1", Value_ := none, Doc_ := none }

/-- The row with ID b. -/
def rowB : Row := { ID := "b", Key := "k2", Value_ := none, Doc_ := none }

/-- The specification scenario body exactly as written: every line
terminated by a bare LF byte and the array bracket on the last row line. -/
def bodyC2stated : List Char := hdrLF ++ rowALineLF ++ rowBLineLF

/-- The two-row body in the shape the code accepts: CR LF terminators and
the final row marked by the absence of a trailing comma. -/
def bodyC2amended : List Char := hdrCRLF ++ rowALineCRLF ++ rowBLineLast

/-- An empty result in the literal shape of the specification: a header
line then the closing token, each terminated by a bare LF byte. -/
def bodyN0LF : List Char :=
  ("\x7b\"total_rows\":0,\"offset\":0,\"rows\":[\n\x7d]\n").data

/-- A one-row CR LF body ended by the closing token. -/
def bodyOneRow : List Char := hdrCRLF ++ rowALineCRLF ++ closeTokA

/-! ### Claim C1 -/

/-- C1, corrected: for every body assembled from a header line, comma-
terminated row lines for the rows rs and the closing token - the well-formed
shape of the code, whose line terminator is CR LF rather than the bare LF
of the specification text - the reader hands over exactly the rows rs, a
consumer making length rs + 1 Scan calls sees true with the k-th row
current after the k-th call and false on the extra call, and the error slot
read by Err is nil at the end.  For rs empty the single Scan call returns
false with a nil error. -/
theorem c1_wellformed_scan (u : List Char → Except String Row)
    (hl : List Char) (rs : List Row) (lines : List (List Char))
    (h1 : oneLine hl) (h2 : List.Forall₂ (commaRowLine u) rs lines) :
    frameRows u (hl ++ lines.flatten ++ closeTokA) = rs ∧
    (runOps (initState u (hl ++ lines.flatten ++ closeTokA))
        (scanOps (rs.length + 1))).1 =
      rs.map (fun r => Out.scanned true r) ++
        [Out.scanned false (rs.getLastD default)] ∧
    (runOps (initState u (hl ++ lines.flatten ++ closeTokA))
        (scanOps (rs.length + 1))).2.errSlot = none := by
  have hfr := frameRows_wf h1 h2
  have hfe := frameErr_wf h1 h2
  refine ⟨hfr, ?_, ?_⟩
  · rw [runScans_outs _ _ (initState_panicked u _) (initState_quitClosed u _)]
    rw [initState_pending, hfr, initState_current, scanOuts_full]
  · by_cases hrs : rs = []
    · have hstate := runScans_state_nil (rs.length + 1) _
        (initState_panicked u _) (initState_quitClosed u _)
        (by rw [initState_pending, hfr, hrs])
      rw [hstate, initState_errSlot_of_nil (hfr.trans hrs), hfe]
    · have hne : frameRows u (hl ++ lines.flatten ++ closeTokA) ≠ [] := by
        rw [hfr]
        exact hrs
      have := runScans_errSlot (rs.length + 1) _
        (initState_panicked u _) (initState_quitClosed u _)
        (by rwa [initState_pending])
        (by rw [initState_pending, hfr]; exact Nat.le_succ _)
      rw [this, initState_ferr, hfe]

/-- Witness for C1: the concrete one-row CR LF body; the hypotheses hold
and the consumer sees true then false with a nil error. -/
theorem c1_wellformed_scan_witness :
    oneLine hdrCRLF ∧
    List.Forall₂ (commaRowLine jsonUnmarshalRow) [rowA] [rowALineCRLF] ∧
    (frameRows jsonUnmarshalRow (hdrCRLF ++ [rowALineCRLF].flatten ++ closeTokA)
        = [rowA] ∧
      (runOps (initState jsonUnmarshalRow
          (hdrCRLF ++ [rowALineCRLF].flatten ++ closeTokA)) (scanOps 2)).1 =
        [Out.scanned true rowA, Out.scanned false rowA] ∧
      (runOps (initState jsonUnmarshalRow
          (hdrCRLF ++ [rowALineCRLF].flatten ++ closeTokA)) (scanOps 2)).2.errSlot
        = none) := by
  have h1 : oneLine hdrCRLF :=
    ⟨("\x7b\"total_rows\":2,\"offset\":0,\"rows\":[\r").data, by decide, by decide⟩
  have hrl : commaRowLine jsonUnmarshalRow rowA rowALineCRLF :=
    ⟨("\x7b\"id\":\"a\",\"key\":\"k1\"\x7d").data, by decide, by decide,
      by decide, by rfl⟩
  have h2 : List.Forall₂ (commaRowLine jsonUnmarshalRow) [rowA] [rowALineCRLF] :=
    List.Forall₂.cons hrl List.Forall₂.nil
  have := c1_wellformed_scan jsonUnmarshalRow hdrCRLF [rowA] [rowALineCRLF] h1 h2
  exact ⟨h1, h2, by
    refine ⟨this.1, ?_, this.2.2⟩
    have h := this.2.1
    simpa using h⟩

/-- Counterexample refuting C1 as stated: the empty result in the literal
shape of specification section 4.2 - header line immediately followed by
the closing token, lines terminated by a bare LF byte.  The first Scan call
does return false, but Err is not nil: the LF-terminated closing line
matches no boundary token of the code, is stripped and fed to the decoder,
and the decode error becomes the terminal error. -/
theorem c1_counterexample :
    (runOps (initState jsonUnmarshalRow bodyN0LF) (scanOps 1)).1 =
      [Out.scanned false default] ∧
    (runOps (initState jsonUnmarshalRow bodyN0LF) (scanOps 1)).2.errSlot =
      some (GoError.decode ("invalid character looking for beginning of value")) := by
  constructor <;> decide

/-! ### Claim C2 -/

/-- C2, corrected: the concrete two-row scenario in the shape the code
accepts.  The body consists of the header line, the row with ID a and Key
k1 on a comma-terminated line, and the row with ID b and Key k2 as the
final array element with no trailing comma; lines are CR LF terminated.
Two Scan calls return true delivering the two rows in order, the third
returns false, and the error slot read by Err is nil. -/
theorem c2_concrete_scenario :
    (runOps (initState jsonUnmarshalRow bodyC2amended) (scanOps 3)).1 =
      [Out.scanned true rowA, Out.scanned true rowB, Out.scanned false rowB] ∧
    (runOps (initState jsonUnmarshalRow bodyC2amended) (scanOps 3)).2.errSlot =
      none := by
  constructor <;> decide

/-- Counterexample refuting C2 as stated: on the body written in the claim
- lines terminated by a bare LF byte and the array bracket sharing the last
row line - the second Scan call returns false, not true: the final line
strips to the row object followed by a stray bracket, json.Unmarshal
rejects the trailing data, and the scan ends with a decode error, so the
row with ID b is never delivered and Err is not nil. -/
theorem c2_counterexample :
    (runOps (initState jsonUnmarshalRow bodyC2stated) (scanOps 3)).1 =
      [Out.scanned true rowA, Out.scanned false rowA, Out.scanned false rowA] ∧
    (runOps (initState jsonUnmarshalRow bodyC2stated) (scanOps 3)).2.errSlot =
      some (GoError.decode ("invalid character after top-level value")) := by
  constructor <;> decide

/-! ### Claim C4 -/

theorem readRows_cons_bad {u : List Char → Except String Row}
    {bad : List Char} {m : String} (h4 : bad ≠ closeTokA)
    (h5 : bad ≠ closeTokB) (h6 : u (trimRight bad) = Except.error m)
    (rest : List (List Char)) :
    readRows u (bad :: rest) =
      Effect.readLine :: Effect.setErr (GoError.decode m) :: exitFx := by
  rw [readRows, if_neg (by exact fun hc => hc.elim h4 h5)]
  rw [h6]

/-- C4, confirmed: if a row line fails to decode, the scan terminates with
the decode error as terminal error, Scan returns false after the rows that
preceded the failure, and nothing read after the failing line matters: the
theorem holds for every continuation tail of the body after that line, so
no row appearing after the failure is ever delivered. -/
theorem c4_decode_error_terminal (u : List Char → Except String Row)
    (hl : List Char) (rs : List Row) (lines : List (List Char))
    (bad : List Char) (m : String) (tail : List Char) (h1 : oneLine hl)
    (h2 : List.Forall₂ (commaRowLine u) rs lines) (h3 : oneLine bad)
    (h4 : bad ≠ closeTokA) (h5 : bad ≠ closeTokB)
    (h6 : u (trimRight bad) = Except.error m) :
    frameRows u (hl ++ lines.flatten ++ bad ++ tail) = rs ∧
    frameErr u (hl ++ lines.flatten ++ bad ++ tail) =
      some (GoError.decode m) ∧
    (runOps (initState u (hl ++ lines.flatten ++ bad ++ tail))
        (scanOps (rs.length + 1))).1 =
      rs.map (fun r => Out.scanned true r) ++
        [Out.scanned false (rs.getLastD default)] ∧
    (runOps (initState u (hl ++ lines.flatten ++ bad ++ tail))
        (scanOps (rs.length + 1))).2.errSlot = some (GoError.decode m) := by
  have hsplit : splitLines (hl ++ lines.flatten ++ bad ++ tail) =
      hl :: (lines ++ (bad :: splitLines tail)) := by
    rw [List.append_assoc, List.append_assoc, splitLines_oneLine_append h1,
      splitLines_join (forall₂_oneLine h2), splitLines_oneLine_append h3]
  have htrace : readLoopGo u (hl ++ lines.flatten ++ bad ++ tail) =
      Effect.readLine ::
        ((rs.map fun r => [Effect.readLine, Effect.emit r]).flatten ++
          (Effect.readLine :: Effect.setErr (GoError.decode m) :: exitFx)) := by
    rw [readLoopGo, hsplit]
    show Effect.readLine :: readRows u (lines ++ (bad :: splitLines tail)) = _
    rw [readRows_append_comma h2, readRows_cons_bad h4 h5 h6]
  have hfr : frameRows u (hl ++ lines.flatten ++ bad ++ tail) = rs := by
    rw [frameRows, htrace, emittedRows_readLine, emittedRows_blocks,
      emittedRows_readLine, emittedRows_setErr, emittedRows_exitFx,
      List.append_nil]
  have hfe : frameErr u (hl ++ lines.flatten ++ bad ++ tail) =
      some (GoError.decode m) := by
    rw [frameErr, htrace, tracedErr_readLine, tracedErr_blocks,
      tracedErr_readLine, tracedErr_setErr]
  refine ⟨hfr, hfe, ?_, ?_⟩
  · rw [runScans_outs _ _ (initState_panicked u _) (initState_quitClosed u _)]
    rw [initState_pending, hfr, initState_current, scanOuts_full]
  · by_cases hrs : rs = []
    · have hstate := runScans_state_nil (rs.length + 1) _
        (initState_panicked u _) (initState_quitClosed u _)
        (by rw [initState_pending, hfr, hrs])
      rw [hstate, initState_errSlot_of_nil (hfr.trans hrs), hfe]
    · have := runScans_errSlot (rs.length + 1) _
        (initState_panicked u _) (initState_quitClosed u _)
        (by rw [initState_pending, hfr]; exact hrs)
        (by rw [initState_pending, hfr]; exact Nat.le_succ _)
      rw [this, initState_ferr, hfe]

/-- Witness for C4: after the row with ID a, a malformed CR LF line is
followed by a further perfectly well-formed row line for the row with ID b;
only the first row is delivered, the scan ends with the decode error, and
the trailing row never appears. -/
theorem c4_decode_error_terminal_witness :
    oneLine hdrCRLF ∧
    List.Forall₂ (commaRowLine jsonUnmarshalRow) [rowA] [rowALineCRLF] ∧
    oneLine (("not json\r\n").data) ∧
    (("not json\r\n").data ≠ closeTokA) ∧
    (("not json\r\n").data ≠ closeTokB) ∧
    jsonUnmarshalRow (trimRight (("not json\r\n").data)) =
      Except.error ("invalid character looking for beginning of value") ∧
    (frameRows jsonUnmarshalRow
        (hdrCRLF ++ [rowALineCRLF].flatten ++ ("not json\r\n").data ++
          rowBLineLast) = [rowA] ∧
      (runOps (initState jsonUnmarshalRow
          (hdrCRLF ++ [rowALineCRLF].flatten ++ ("not json\r\n").data ++
            rowBLineLast)) (scanOps 2)).1 =
        [Out.scanned true rowA, Out.scanned false rowA] ∧
      (runOps (initState jsonUnmarshalRow
          (hdrCRLF ++ [rowALineCRLF].flatten ++ ("not json\r\n").data ++
            rowBLineLast)) (scanOps 2)).2.errSlot =
        some (GoError.decode ("invalid character looking for beginning of value"))) := by
  have h1 : oneLine hdrCRLF :=
    ⟨("\x7b\"total_rows\":2,\"offset\":0,\"rows\":[\r").data, by decide, by decide⟩
  have hrl : commaRowLine jsonUnmarshalRow rowA rowALineCRLF :=
    ⟨("\x7b\"id\":\"a\",\"key\":\"k1\"\x7d").data, by decide, by decide,
      by decide, by rfl⟩
  have h2 : List.Forall₂ (commaRowLine jsonUnmarshalRow) [rowA] [rowALineCRLF] :=
    List.Forall₂.cons hrl List.Forall₂.nil
  have h3 : oneLine (("not json\r\n").data) :=
    ⟨("not json\r").data, by decide, by decide⟩
  have h4 : ("not json\r\n").data ≠ closeTokA := by decide
  have h5 : ("not json\r\n").data ≠ closeTokB := by decide
  have h6 : jsonUnmarshalRow (trimRight (("not json\r\n").data)) =
      Except.error ("invalid character looking for beginning of value") := by rfl
  have hmain := c4_decode_error_terminal jsonUnmarshalRow hdrCRLF [rowA]
    [rowALineCRLF] (("not json\r\n").data)
    ("invalid character looking for beginning of value") rowBLineLast
    h1 h2 h3 h4 h5 h6
  refine ⟨h1, h2, h3, h4, h5, h6, hmain.1, ?_, hmain.2.2.2⟩
  have h := hmain.2.2.1
  simpa using h

/-! ### Claim C5 -/

theorem readRows_cons_closing {u : List Char → Except String Row}
    {line : List Char} (hc : line = closeTokA ∨ line = closeTokB)
    (rest : List (List Char)) :
    readRows u (line :: rest) = Effect.readLine :: exitFx := by
  rw [readRows, if_pos hc]

theorem readRows_cons_ok_last {u : List Char → Except String Row}
    {line : List Char} {r : Row} (h1 : line ≠ closeTokA)
    (h2 : line ≠ closeTokB) (h3 : u (trimRight line) = Except.ok r)
    (hS : hasSuffixB line endMarker = true) (rest : List (List Char)) :
    readRows u (line :: rest) =
      Effect.readLine :: Effect.emit r :: exitFx := by
  rw [readRows, if_neg (by exact fun hc => hc.elim h1 h2), h3]
  show Effect.readLine ::
      (if hasSuffixB line endMarker then _ else _) = _
  rw [hS]
  rfl

theorem readRows_cons_ok_cont {u : List Char → Except String Row}
    {line : List Char} {r : Row} (h1 : line ≠ closeTokA)
    (h2 : line ≠ closeTokB) (h3 : u (trimRight line) = Except.ok r)
    (hS : hasSuffixB line endMarker = false) (rest : List (List Char)) :
    readRows u (line :: rest) =
      Effect.readLine :: Effect.emit r :: readRows u rest := by
  rw [readRows, if_neg (by exact fun hc => hc.elim h1 h2), h3]
  show Effect.readLine ::
      (if hasSuffixB line endMarker then _ else _) = _
  rw [hS]
  rfl

/-- C5, confirmed: a line after the header that is not a boundary token is
treated as the final array element exactly when it ends in the close brace
followed by the CR LF terminator with no trailing comma, which is the
endMarker byte suffix; after emitting the row decoded from such a line the
reader stops with the deferred cleanup and performs no further read - the
trace is independent of everything that follows that line - while a line
without the marker lets the loop continue into the rest of the stream. -/
theorem c5_last_row_marker (u : List Char → Except String Row)
    (line : List Char) (r : Row) (h1 : line ≠ closeTokA)
    (h2 : line ≠ closeTokB) (h3 : u (trimRight line) = Except.ok r) :
    (hasSuffixB line endMarker = true ↔ ∃ q, line = q ++ endMarker) ∧
    (hasSuffixB line endMarker = true →
      ∀ rest, readRows u (line :: rest) =
        Effect.readLine :: Effect.emit r :: exitFx) ∧
    (hasSuffixB line endMarker = false →
      ∀ rest, readRows u (line :: rest) =
        Effect.readLine :: Effect.emit r :: readRows u rest) := by
  refine ⟨?_, fun hS rest => readRows_cons_ok_last h1 h2 h3 hS rest,
    fun hS rest => readRows_cons_ok_cont h1 h2 h3 hS rest⟩
  rw [hasSuffixB, List.isSuffixOf_iff_suffix]
  constructor
  · intro hsuf
    obtain ⟨q, hq⟩ := hsuf
    exact ⟨q, hq.symm⟩
  · intro hq
    obtain ⟨q, hq⟩ := hq
    exact ⟨q, hq.symm⟩

/-- Witness for C5: the final row line of the concrete scenario carries the
endMarker suffix, and the trace stops right after its row however the body
would continue. -/
theorem c5_last_row_marker_witness :
    (rowBLineLast ≠ closeTokA) ∧ (rowBLineLast ≠ closeTokB) ∧
    jsonUnmarshalRow (trimRight rowBLineLast) = Except.ok rowB ∧
    ((hasSuffixB rowBLineLast endMarker = true ↔
        ∃ q, rowBLineLast = q ++ endMarker) ∧
      (hasSuffixB rowBLineLast endMarker = true →
        ∀ rest, readRows jsonUnmarshalRow (rowBLineLast :: rest) =
          Effect.readLine :: Effect.emit rowB :: exitFx) ∧
      (hasSuffixB rowBLineLast endMarker = false →
        ∀ rest, readRows jsonUnmarshalRow (rowBLineLast :: rest) =
          Effect.readLine :: Effect.emit rowB :: readRows jsonUnmarshalRow rest)) := by
  have h1 : rowBLineLast ≠ closeTokA := by decide
  have h2 : rowBLineLast ≠ closeTokB := by decide
  have h3 : jsonUnmarshalRow (trimRight rowBLineLast) = Except.ok rowB := by rfl
  exact ⟨h1, h2, h3, c5_last_row_marker jsonUnmarshalRow rowBLineLast rowB h1 h2 h3⟩


/-! ### Claim C3 -/

/-- Every run of the loop body ends with the deferred drain, body close and
channel close, and none of those effects occurs anywhere earlier in the
trace. -/
theorem readRows_cleanup (u : List Char → Except String Row) :
    ∀ ls : List (List Char), ∃ pre, readRows u ls = pre ++ exitFx ∧
      Effect.drain ∉ pre ∧ Effect.closeBody ∉ pre ∧ Effect.closeRows ∉ pre := by
  intro ls
  induction ls with
  | nil =>
    exact ⟨[Effect.readLine, Effect.setErr GoError.eof], rfl,
      by decide, by decide, by decide⟩
  | cons line rest ih =>
    by_cases hc : line = closeTokA ∨ line = closeTokB
    · exact ⟨[Effect.readLine], readRows_cons_closing hc rest,
        by decide, by decide, by decide⟩
    · have h1 : line ≠ closeTokA := fun h => hc (Or.inl h)
      have h2 : line ≠ closeTokB := fun h => hc (Or.inr h)
      cases hu : u (trimRight line) with
      | error m =>
        refine ⟨[Effect.readLine, Effect.setErr (GoError.decode m)],
          readRows_cons_bad h1 h2 hu rest, ?_, ?_, ?_⟩ <;> simp
      | ok r =>
        cases hS : hasSuffixB line endMarker with
        | true =>
          refine ⟨[Effect.readLine, Effect.emit r],
            readRows_cons_ok_last h1 h2 hu hS rest, ?_, ?_, ?_⟩ <;> simp
        | false =>
          obtain ⟨pre, hpre, hd, hb, hr⟩ := ih
          refine ⟨Effect.readLine :: Effect.emit r :: pre, ?_, ?_, ?_, ?_⟩
          · rw [readRows_cons_ok_cont h1 h2 hu hS rest, hpre]
            rfl
          · intro hmem
            simp only [List.mem_cons] at hmem
            rcases hmem with h | h | hmem
            · exact absurd h (by simp)
            · exact absurd h (by simp)
            · exact hd hmem
          · intro hmem
            simp only [List.mem_cons] at hmem
            rcases hmem with h | h | hmem
            · exact absurd h (by simp)
            · exact absurd h (by simp)
            · exact hb hmem
          · intro hmem
            simp only [List.mem_cons] at hmem
            rcases hmem with h | h | hmem
            · exact absurd h (by simp)
            · exact absurd h (by simp)
            · exact hr hmem

/-- The resource invariant of the scanner state: the reader has exited if
and only if it has no pending handoffs, the body has been closed exactly
once if the reader has exited and not at all otherwise, and the body has
been drained exactly when it has been closed. -/
def closedInv (st : ScanState) : Prop :=
  (st.rowsClosed = true ↔ st.pending = []) ∧
  st.bodyClosed = (if st.rowsClosed then 1 else 0) ∧
  st.drained = st.rowsClosed

theorem closedInv_initState (u : List Char → Except String Row)
    (body : List Char) : closedInv (initState u body) := by
  rw [initState]
  split
  · next h =>
    exact ⟨by simp, rfl, rfl⟩
  · next h =>
    rw [List.isEmpty_iff] at h
    exact ⟨by simp [h], rfl, rfl⟩

theorem closedInv_step {st : ScanState} (op : Op) (h : closedInv st) :
    closedInv (step st op).1 := by
  obtain ⟨hrc, hbc, hdr⟩ := h
  unfold step
  split
  · exact ⟨hrc, hbc, hdr⟩
  · split
    · split
      · exact ⟨hrc, hbc, hdr⟩
      · exact ⟨hrc, hbc, hdr⟩
    · split
      · split
        · dsimp only
          split
          · next hcond =>
            have hnc : st.rowsClosed = false := by
              rcases hcond with ⟨-, -, h3⟩
              cases hv : st.rowsClosed
              · rfl
              · exact absurd hv h3
            refine ⟨by simp, ?_, rfl⟩
            simp [hbc, hnc]
          · exact ⟨hrc, hbc, hdr⟩
        · split
          · next r tail heq =>
            have hnc : st.rowsClosed = false := by
              cases hv : st.rowsClosed
              · rfl
              · have := hrc.1 hv
                rw [heq] at this
                cases this
            refine ⟨by simp, ?_, rfl⟩
            simp [hbc, hnc]
          · exact ⟨hrc, hbc, hdr⟩
      · split
        · next r rest heq =>
          have hnc : st.rowsClosed = false := by
            cases hv : st.rowsClosed
            · rfl
            · have := hrc.1 hv
              rw [heq] at this
              cases this
          split
          · refine ⟨by simp, ?_, rfl⟩
            simp [hbc, hnc]
          · next hrest =>
            refine ⟨?_, hbc, hdr⟩
            constructor
            · intro hv
              dsimp only at hv
              rw [hnc] at hv
              simp at hv
            · intro hv
              dsimp only at hv
              rw [hv] at hrest
              exact absurd rfl hrest
        · exact ⟨hrc, hbc, hdr⟩

theorem closedInv_runOps {st : ScanState} (h : closedInv st) :
    ∀ ops : List Op, closedInv ((runOps st ops).2) := by
  intro ops
  induction ops generalizing st with
  | nil => exact h
  | cons op ops ih =>
    rw [runOps_cons]
    exact ih (closedInv_step op h)

/-- C3, confirmed: on every reader termination path the body is drained and
then closed, exactly once.  First part: with no cancellation, every trace of
the read loop ends with the deferred drain, body close and channel close and
contains them nowhere else, on all exit paths - stream exhaustion, read
error (end of input), decode error, last-row stop.  Second part: under every
consumer behaviour, including cancellation via Close at any point and the
select races after it, the machine keeps the invariant that the body has
been closed exactly once when the reader has terminated, zero times before,
and drained exactly when closed. -/
theorem c3_drain_close_once :
    (∀ (u : List Char → Except String Row) (body : List Char),
      ∃ pre, readLoopGo u body = pre ++ exitFx ∧
        Effect.drain ∉ pre ∧ Effect.closeBody ∉ pre ∧ Effect.closeRows ∉ pre) ∧
    (∀ (u : List Char → Except String Row) (body : List Char) (ops : List Op),
      closedInv ((runOps (initState u body) ops).2)) := by
  constructor
  · intro u body
    rw [readLoopGo]
    cases splitLines body with
    | nil =>
      exact ⟨[Effect.readLine, Effect.setErr GoError.eof], rfl,
        by decide, by decide, by decide⟩
    | cons hl rest =>
      obtain ⟨pre, hpre, hd, hb, hr⟩ := readRows_cleanup u rest
      refine ⟨Effect.readLine :: pre, ?_, ?_, ?_, ?_⟩
      · show Effect.readLine :: readRows u rest = _
        rw [hpre]
        rfl
      · intro hmem
        simp only [List.mem_cons] at hmem
        rcases hmem with h | hmem
        · exact absurd h (by simp)
        · exact hd hmem
      · intro hmem
        simp only [List.mem_cons] at hmem
        rcases hmem with h | hmem
        · exact absurd h (by simp)
        · exact hb hmem
      · intro hmem
        simp only [List.mem_cons] at hmem
        rcases hmem with h | hmem
        · exact absurd h (by simp)
        · exact hr hmem
  · intro u body ops
    exact closedInv_runOps (closedInv_initState u body) ops

/-! ### Claim C6 -/

/-- Recognises the error-slot write effect. -/
def isSetErr (e : Effect) : Bool :=
  match e with
  | Effect.setErr _ => true
  | _ => false

theorem readRows_setErr_le_one (u : List Char → Except String Row) :
    ∀ ls : List (List Char), (readRows u ls).countP isSetErr ≤ 1 := by
  intro ls
  induction ls with
  | nil =>
    show (Effect.readLine :: Effect.setErr GoError.eof :: exitFx).countP
      isSetErr ≤ 1
    decide
  | cons line rest ih =>
    by_cases hc : line = closeTokA ∨ line = closeTokB
    · rw [readRows_cons_closing hc rest]
      decide
    · have h1 : line ≠ closeTokA := fun h => hc (Or.inl h)
      have h2 : line ≠ closeTokB := fun h => hc (Or.inr h)
      cases hu : u (trimRight line) with
      | error m =>
        rw [readRows_cons_bad h1 h2 hu rest]
        simp [List.countP_cons, isSetErr, exitFx]
      | ok r =>
        cases hS : hasSuffixB line endMarker with
        | true =>
          rw [readRows_cons_ok_last h1 h2 hu hS rest]
          simp [List.countP_cons, isSetErr, exitFx]
        | false =>
          rw [readRows_cons_ok_cont h1 h2 hu hS rest]
          simpa [List.countP_cons, isSetErr] using ih

theorem scanOuts_zero (rs : List Row) (cur : Row) : scanOuts rs cur 0 = [] := by
  cases rs <;> rfl

theorem scanOuts_no_panic :
    ∀ (n : Nat) (rs : List Row) (cur : Row),
      Out.panicStop ∉ scanOuts rs cur n := by
  intro n
  induction n with
  | zero =>
    intro rs cur
    rw [scanOuts_zero]
    simp
  | succ n ih =>
    intro rs cur
    cases rs with
    | nil =>
      rw [scanOuts]
      intro hmem
      simp only [List.mem_cons] at hmem
      rcases hmem with h | hmem
      · exact absurd h (by simp)
      · exact ih [] cur hmem
    | cons r rest =>
      rw [scanOuts]
      intro hmem
      simp only [List.mem_cons] at hmem
      rcases hmem with h | hmem
      · exact absurd h (by simp)
      · exact ih rest r hmem

/-- C6, confirmed: the error slot is written at most once per scan - every
call site of setErr in the read loop returns immediately, so no recorded
terminal error is ever overwritten - and errors surface only through the
false return of Scan and through Err, never as a panic: no run of plain
Scan calls ever produces the panic outcome (the only panic in the surface
is the one a second Close triggers, settled under C8). -/
theorem c6_error_slot_write_once :
    (∀ (u : List Char → Except String Row) (body : List Char),
      (readLoopGo u body).countP isSetErr ≤ 1) ∧
    (∀ (u : List Char → Except String Row) (body : List Char) (n : Nat),
      Out.panicStop ∉ (runOps (initState u body) (scanOps n)).1) := by
  constructor
  · intro u body
    rw [readLoopGo]
    cases splitLines body with
    | nil =>
      show (Effect.readLine :: Effect.setErr GoError.eof :: exitFx).countP
        isSetErr ≤ 1
      decide
    | cons hl rest =>
      show (Effect.readLine :: readRows u rest).countP isSetErr ≤ 1
      simpa [List.countP_cons, isSetErr] using readRows_setErr_le_one u rest
  · intro u body n
    rw [runScans_outs n _ (initState_panicked u body) (initState_quitClosed u body)]
    exact scanOuts_no_panic n _ _

/-! ### Claim C7 -/

theorem scanOuts_false_from (rs : List Row) :
    ∀ (n i : Nat) (cur c : Row),
      (scanOuts rs cur n)[i]? = some (Out.scanned false c) → rs.length ≤ i := by
  induction rs with
  | nil =>
    intro n i cur c _
    simp
  | cons r rest ih =>
    intro n i cur c hi
    cases n with
    | zero =>
      rw [scanOuts_zero] at hi
      simp at hi
    | succ n =>
      rw [scanOuts] at hi
      cases i with
      | zero =>
        simp at hi
      | succ i =>
        rw [List.getElem?_cons_succ] at hi
        have := ih n i r c hi
        simp only [List.length_cons]
        omega

theorem scanOuts_false_at (n : Nat) :
    ∀ (rs : List Row) (cur : Row) (j : Nat), rs.length ≤ j → j < n →
      (scanOuts rs cur n)[j]? = some (Out.scanned false (rs.getLastD cur)) := by
  induction n with
  | zero =>
    intro rs cur j _ hj
    omega
  | succ n ih =>
    intro rs cur j hlen hj
    cases rs with
    | nil =>
      cases j with
      | zero =>
        rw [scanOuts]
        simp
      | succ j =>
        rw [scanOuts, List.getElem?_cons_succ]
        exact ih [] cur j (by simp) (by omega)
    | cons r rest =>
      cases j with
      | zero =>
        rw [List.length_cons] at hlen
        omega
      | succ j =>
        rw [scanOuts, List.getElem?_cons_succ, List.getLastD_cons]
        exact ih rest r j (by rw [List.length_cons] at hlen; omega) (by omega)

/-- C7, corrected: for a consumer that never calls Close, Scan is safe to
call repeatedly and monotone: once some call returns false, every later
call in the run also returns false.  (The unrestricted claim fails: after
Close the consumer select can take the quit case and return false while the
reader is still parked on a handoff, and a later Scan can pair with that
parked sender and return true - see the counterexample.) -/
theorem c7_false_is_final (u : List Char → Except String Row)
    (body : List Char) (n i j : Nat) (c : Row) (hij : i ≤ j) (hj : j < n)
    (hi : ((runOps (initState u body) (scanOps n)).1)[i]? =
      some (Out.scanned false c)) :
    ∃ c2, ((runOps (initState u body) (scanOps n)).1)[j]? =
      some (Out.scanned false c2) := by
  rw [runScans_outs n _ (initState_panicked u body)
    (initState_quitClosed u body)] at hi ⊢
  have hlen := scanOuts_false_from _ n i _ c hi
  exact ⟨_, scanOuts_false_at n _ _ j (le_trans hlen hij) hj⟩

/-- Witness for C7: on a body with no rows the first Scan returns false and
the theorem yields that the second is false as well. -/
theorem c7_false_is_final_witness :
    (0 : Nat) ≤ 1 ∧ (1 : Nat) < 2 ∧
    ((runOps (initState jsonUnmarshalRow []) (scanOps 2)).1)[0]? =
      some (Out.scanned false default) ∧
    ∃ c2, ((runOps (initState jsonUnmarshalRow []) (scanOps 2)).1)[1]? =
      some (Out.scanned false c2) := by
  refine ⟨by decide, by decide, by decide, ?_⟩
  exact c7_false_is_final jsonUnmarshalRow [] 2 0 1 default (by decide)
    (by decide) (by decide)

/-- Counterexample refuting C7 as stated: with one row pending, the
consumer calls Close, then Scan; the consumer select takes the closed quit
channel and Scan returns false while the reader stays parked on the
handoff.  The next Scan pairs with the parked sender and returns true: a
true after a false, against the claim that false is permanent. -/
theorem c7_counterexample :
    ((runOps (initState jsonUnmarshalRow bodyOneRow)
        [Op.close, Op.scan true false, Op.scan false false]).1)[1]? =
      some (Out.scanned false default) ∧
    ((runOps (initState jsonUnmarshalRow bodyOneRow)
        [Op.close, Op.scan true false, Op.scan false false]).1)[2]? =
      some (Out.scanned true rowA) := by
  constructor <;> decide

/-! ### Claim C8 -/

theorem runOps_append (a : List Op) :
    ∀ (st : ScanState) (b : List Op),
      runOps st (a ++ b) =
        ((runOps st a).1 ++ (runOps (runOps st a).2 b).1,
          (runOps (runOps st a).2 b).2) := by
  induction a with
  | nil =>
    intro st b
    rfl
  | cons op a ih =>
    intro st b
    rw [List.cons_append, runOps_cons, ih, runOps_cons]
    rfl

theorem step_close_eq (st : ScanState) (hp : st.panicked = false)
    (hq : st.quitClosed = false) :
    step st Op.close = ({ st with quitClosed := true }, Out.closed st.errSlot) := by
  obtain ⟨f1, f2, f3, f4, f5, f6, f7, f8, f9⟩ := st
  dsimp only at hp hq
  subst hp
  subst hq
  rfl

theorem step_scan_flags (st : ScanState) (tq rb : Bool) :
    ((step st (Op.scan tq rb)).1).quitClosed = st.quitClosed ∧
    ((step st (Op.scan tq rb)).1).panicked = st.panicked := by
  unfold step
  split
  · exact ⟨rfl, rfl⟩
  · split
    · next heq => exact Op.noConfusion heq
    · next tq2 rb2 heq =>
      injection heq with e1 e2
      subst e1
      subst e2
      split
      · split
        · dsimp only
          split
          · exact ⟨rfl, rfl⟩
          · exact ⟨rfl, rfl⟩
        · split
          · exact ⟨rfl, rfl⟩
          · exact ⟨rfl, rfl⟩
      · split
        · split
          · exact ⟨rfl, rfl⟩
          · exact ⟨rfl, rfl⟩
        · exact ⟨rfl, rfl⟩

theorem runOps_scan_flags :
    ∀ (ops : List Op) (st : ScanState), (∀ op ∈ ops, op ≠ Op.close) →
      ((runOps st ops).2.quitClosed = st.quitClosed ∧
        (runOps st ops).2.panicked = st.panicked) := by
  intro ops
  induction ops with
  | nil =>
    intro st _
    exact ⟨rfl, rfl⟩
  | cons op ops ih =>
    intro st h
    rw [runOps_cons]
    have hop : op ≠ Op.close := h op (List.mem_cons_self _ _)
    cases op with
    | close => exact absurd rfl hop
    | scan tq rb =>
      have hflags := step_scan_flags st tq rb
      have := ih (step st (Op.scan tq rb)).1
        (fun o ho => h o (List.mem_cons_of_mem _ ho))
      exact ⟨this.1.trans hflags.1, this.2.trans hflags.2⟩

/-- C8, corrected: after any close-free sequence of consumer operations -
in particular after natural exhaustion of the stream - the first call to
Close does not panic, returns the terminal error recorded in the slot so
far, and changes nothing in the scanner state but the cancellation flag:
the pending rows, the body-close count and the error slot are untouched.
(The unrestricted claim fails: a second call to Close panics, since closing
an already-closed Go channel panics - see the counterexample.) -/
theorem c8_first_close (u : List Char → Except String Row)
    (body : List Char) (ops : List Op) (h : ∀ op ∈ ops, op ≠ Op.close) :
    runOps (initState u body) (ops ++ [Op.close]) =
      ((runOps (initState u body) ops).1 ++
        [Out.closed ((runOps (initState u body) ops).2.errSlot)],
       { (runOps (initState u body) ops).2 with quitClosed := true }) := by
  rw [runOps_append]
  have hflags := runOps_scan_flags ops (initState u body) h
  have hq : (runOps (initState u body) ops).2.quitClosed = false :=
    hflags.1.trans (initState_quitClosed u body)
  have hp : (runOps (initState u body) ops).2.panicked = false :=
    hflags.2.trans (initState_panicked u body)
  rw [runOps_cons, step_close_eq _ hp hq]
  rfl

/-- Witness for C8: two Scan calls exhaust the one-row body naturally, then
the first Close returns a nil terminal error without panicking. -/
theorem c8_first_close_witness :
    (∀ op ∈ scanOps 2, op ≠ Op.close) ∧
    (runOps (initState jsonUnmarshalRow bodyOneRow)
        (scanOps 2 ++ [Op.close])).1 =
      [Out.scanned true rowA, Out.scanned false rowA, Out.closed none] := by
  have h : ∀ op ∈ scanOps 2, op ≠ Op.close := by decide
  refine ⟨h, ?_⟩
  have heq := c8_first_close jsonUnmarshalRow bodyOneRow (scanOps 2) h
  have h1 := congrArg Prod.fst heq
  rw [h1]
  decide

/-- Counterexample refuting C8 as stated: calling Close twice panics - the
second close of the quit channel is a close of an already-closed Go
channel - so Close is not idempotent-safe and can panic. -/
theorem c8_counterexample :
    (runOps (initState jsonUnmarshalRow bodyOneRow) [Op.close, Op.close]).1 =
      [Out.closed none, Out.panicStop] := by
  decide

/-! ### Claim C9 -/

/-- C9, confirmed: requesting the value (or document) payload of a row that
was built without one fails with the explicit nil-field error for every
decoder - it never silently succeeds with a zero value - and HasValue and
HasDoc report exactly the presence of the raw payloads, independently of
any decoding. -/
theorem c9_absent_field_errors (r : Row) :
    (r.HasValue = false →
      ∀ {α : Type} (u : String → Except String α),
        r.Value u = Except.error ("value is nil.")) ∧
    (r.HasDoc = false →
      ∀ {α : Type} (u : String → Except String α),
        r.Doc u = Except.error ("doc is nil.")) ∧
    (r.HasValue = true ↔ r.Value_ ≠ none) ∧
    (r.HasDoc = true ↔ r.Doc_ ≠ none) := by
  refine ⟨?_, ?_, ?_, ?_⟩
  · intro h α u
    rw [Row.Value]
    cases hv : r.Value_ with
    | none => rfl
    | some raw =>
      rw [Row.HasValue, hv] at h
      simp at h
  · intro h α u
    rw [Row.Doc]
    cases hv : r.Doc_ with
    | none => rfl
    | some raw =>
      rw [Row.HasDoc, hv] at h
      simp at h
  · rw [Row.HasValue]
    cases r.Value_ <;> simp
  · rw [Row.HasDoc]
    cases r.Doc_ <;> simp

/-- Witness for C9: a row captured without value or doc payloads fails both
decodes with the explicit errors, under a decoder that would otherwise
succeed. -/
theorem c9_absent_field_errors_witness :
    ((⟨"x", "k", none, none⟩ : Row).HasValue = false) ∧
    ((⟨"x", "k", none, none⟩ : Row).HasDoc = false) ∧
    (⟨"x", "k", none, none⟩ : Row).Value
        (fun s => Except.ok s.length) = Except.error ("value is nil.") ∧
    (⟨"x", "k", none, none⟩ : Row).Doc
        (fun s => Except.ok s.length) = Except.error ("doc is nil.") := by
  have h := c9_absent_field_errors ⟨"x", "k", none, none⟩
  exact ⟨by decide, by decide,
    h.1 (by decide) (fun s => Except.ok s.length),
    h.2.1 (by decide) (fun s => Except.ok s.length)⟩

/-! ### Claim C10 -/

/-- C10, confirmed: the value and doc decodes are side-effect-free and
idempotent.  A call leaves the receiver row unchanged; repeating a call
with the same target decoder yields the same result; and the two decodes
do not interact - each returns the same result whether or not the other
ran first, in either order. -/
theorem c10_decode_idempotent {α β : Type} (r : Row)
    (u : String → Except String α) (w : String → Except String β) :
    (r.ValueSt u).2 = r ∧
    (r.DocSt w).2 = r ∧
    ((r.ValueSt u).2.ValueSt u).1 = (r.ValueSt u).1 ∧
    ((r.DocSt w).2.DocSt w).1 = (r.DocSt w).1 ∧
    ((r.DocSt w).2.ValueSt u).1 = (r.ValueSt u).1 ∧
    ((r.ValueSt u).2.DocSt w).1 = (r.DocSt w).1 :=
  ⟨rfl, rfl, rfl, rfl, rfl, rfl⟩

end CouchDB
